import Mathlib

/-
Verification of the garmin-fit-analyzer classification and analytics engine.

Shallow embedding notes:
* Python floats are modelled as exact rationals (ℚ); every classifier decision in
  the source is an order comparison against a constant, so the embedding is
  threshold-faithful.
* The SQLite activities table (gui.py, DatabaseManager) is modelled as a list of
  rows; TEXT dates (ISO "YYYY-MM-DD" strings, compared lexicographically by
  SQLite, which on ISO dates coincides with chronological order) are modelled as
  integers with the same total order.
* json.loads of a stored payload may raise; a stored payload text is modelled by
  its parse result (Option P): some p for a well-formed payload, none for a
  malformed one.  A raised exception is modelled by the whole operation
  returning none.
-/

namespace GarminFit

/-! ### Running-form verdicts (constants.py FORM_VERDICT) -/

/-- The five form-verdict keys of constants.py FORM_VERDICT. -/
inductive FormVerdict where
  | ELITE_FORM
  | GOOD_FORM
  | HIKING_REST
  | HEAVY_FEET
  | PLODDING
deriving DecidableEq, Repr

/-- Modelled from the spec: analyzer.py (analyze_form) is not under src/; only its
threshold table is declared in the FORM_VERDICT docstring of constants.py and in
spec §4.2.  Bands are tested in the documented order:
≥170 ELITE_FORM; ≥160 GOOD_FORM; <135 HIKING_REST; <155 HEAVY_FEET; else PLODDING. -/
def classifyForm (cadence : ℚ) : FormVerdict :=
  if cadence ≥ 170 then .ELITE_FORM
  else if cadence ≥ 160 then .GOOD_FORM
  else if cadence < 135 then .HIKING_REST
  else if cadence < 155 then .HEAVY_FEET
  else .PLODDING

/-! ### Load categories (constants.py LOAD_CATEGORY) -/

/-- The four TRIMP load-category keys of constants.py LOAD_CATEGORY. -/
inductive LoadCategory where
  | RECOVERY
  | BASE
  | OVERLOAD
  | OVERREACHING
deriving DecidableEq, Repr

/-- Modelled from the spec: the load-chart logic of app.py is not under src/; only
its threshold table is declared in the LOAD_CATEGORY docstring of constants.py and
in spec §4.2: <75 RECOVERY; [75,150) BASE; [150,300) OVERLOAD; ≥300 OVERREACHING. -/
def classifyLoad (trimp : ℚ) : LoadCategory :=
  if trimp < 75 then .RECOVERY
  else if trimp < 150 then .BASE
  else if trimp < 300 then .OVERLOAD
  else .OVERREACHING

/-! ### Training-effect labels (constants.py TE_LABEL) -/

/-- The four training-effect label keys of constants.py TE_LABEL. -/
inductive TELabel where
  | MAX_POWER
  | ANAEROBIC
  | VO2_MAX
  | THRESHOLD
deriving DecidableEq, Repr

/-- Modelled from the spec: FitAnalyzer.get_training_label of analyzer.py is not
under src/; only its decision table is declared in the TE_LABEL docstring of
constants.py and in spec §4.2.  The "numerically close to or exceeding aerobic"
criterion of the ANAEROBIC branch is not given exactly anywhere, so it is kept as
an explicit parameter close.  A base/recovery session gets no label (none). -/
def classifyTrainingEffect (close : ℚ → ℚ → Bool)
    (aerobicTE anaerobicTE : ℚ) : Option TELabel :=
  if anaerobicTE ≥ 3.5 then some .MAX_POWER
  else if anaerobicTE ≥ 2.5 ∧ close anaerobicTE aerobicTE then some .ANAEROBIC
  else if aerobicTE ≥ 4.2 then some .VO2_MAX
  else if aerobicTE ≥ 3.5 then some .THRESHOLD
  else none

/-! ### Quadrant classification (gui.py generate_dashboard, durability colour logic) -/

/-- The four quadrant verdicts of the durability chart in gui.py
generate_dashboard. -/
inductive QuadrantVerdict where
  | raceReady
  | expensiveSpeed
  | baseMaintenance
  | struggling
deriving DecidableEq, Repr

/-- Embedding of the per-row verdict chain in gui.py generate_dashboard:
if e >= ef_mean and d <= 5: Race Ready; elif e >= ef_mean and d > 5:
Expensive Speed; elif e < ef_mean and d <= 5: Base Maintenance; else Struggling. -/
def classifyQuadrant (e d mean : ℚ) : QuadrantVerdict :=
  if e ≥ mean ∧ d ≤ 5 then .raceReady
  else if e ≥ mean ∧ d > 5 then .expensiveSpeed
  else if e < mean ∧ d ≤ 5 then .baseMaintenance
  else .struggling

/-! ### Trend analytics (gui.py generate_dashboard, smart trend logic) -/

/-- The four trend directions of the dashboard title in gui.py
generate_dashboard (improving, declining, stable, and the except branch
Insufficient Data). -/
inductive TrendDirection where
  | improving
  | declining
  | stable
  | insufficientData
deriving DecidableEq, Repr

/-- Earliest date of the window, as in the expression
(self.df['date_obj'] - self.df['date_obj'].min()) of gui.py. -/
def minDate : List ℚ → ℚ
  | [] => 0
  | t :: rest => rest.foldl min t

/-- Embedding of scipy.stats.linregress restricted to its slope output, over
exact rationals: slope = (n Σxy − Σx Σy) / (n Σx² − (Σx)²), applied in gui.py to
x = seconds elapsed since the earliest activity and y = efficiency_factor.
linregress raises (sending gui.py into its except branch) when fewer than two
points are given or when all x coincide (zero x-variance, the guarded
denominator); both failure modes are modelled as none. -/
def slopeOf (pts : List (ℚ × ℚ)) : Option ℚ :=
  if pts.length < 2 then none
  else
    let m := minDate (pts.map Prod.fst)
    let xs := pts.map (fun p => p.1 - m)
    let ys := pts.map Prod.snd
    let n : ℚ := pts.length
    let sx := xs.sum
    let sxx := (xs.map (fun x => x * x)).sum
    let sxy := (List.zipWith (fun x y => x * y) xs ys).sum
    let sy := ys.sum
    let denom := n * sxx - sx * sx
    if denom = 0 then none else some ((n * sxy - sx * sy) / denom)

/-- Dead-band epsilon 0.0000001 of the trend classifier in gui.py. -/
def trendEps : ℚ := 1 / 10000000

/-- Embedding of the smart-trend branch of gui.py generate_dashboard: slope
above the dead-band is improving, below its negation declining, otherwise
stable; a linregress failure lands in the except branch, Insufficient Data. -/
def computeTrend (pts : List (ℚ × ℚ)) : TrendDirection :=
  match slopeOf pts with
  | none => .insufficientData
  | some s =>
    if s > trendEps then .improving
    else if s < -trendEps then .declining
    else .stable

/-! ### Activity store and window queries (gui.py DatabaseManager) -/

/-- One row of the activities table created in DatabaseManager.create_tables
(hash TEXT PRIMARY KEY, filename TEXT, date TEXT, json_data TEXT,
session_id INTEGER).  The stored json_data TEXT is modelled by its json.loads
parse result over an abstract payload type P: some p when well-formed, none
when malformed.  ISO date TEXT (compared lexicographically by SQLite, which on
ISO dates is chronological order) is modelled as an integer with the same
total order. -/
structure StoredRow (P : Type) where
  hash : String
  filename : String
  date : ℤ
  json_data : Option P
  session_id : ℤ
deriving DecidableEq

/-- The five timeframe strings of constants.py TIMEFRAME_OPTIONS, as compared by
DatabaseManager.get_activities. -/
inductive Timeframe where
  | lastImport
  | last30Days
  | last90Days
  | thisYear
  | allTime
deriving DecidableEq, Repr

/-- Python truthiness of the current_session_id argument (None and 0 are both
falsy), as tested by the condition
(timeframe == "Last Import" and current_session_id) in get_activities. -/
def truthy : Option ℤ → Bool
  | none => false
  | some n => n != 0

/-- WHERE-clause construction of DatabaseManager.get_activities.  The date
bounds derived from datetime.now() (30 days back, 90 days back, January 1st of
the current year) enter as parameters limit30, limit90, yearStart; stored-date
comparisons are inclusive (date >= bound).  A Last Import query whose session
id is falsy adds no WHERE clause at all, so it selects every row. -/
def selectWindow {P : Type} (db : List (StoredRow P)) (tf : Timeframe)
    (sid : Option ℤ) (limit30 limit90 yearStart : ℤ) : List (StoredRow P) :=
  if tf = .lastImport ∧ truthy sid then
    db.filter (fun r => decide (some r.session_id = sid))
  else if tf = .last30Days then db.filter (fun r => decide (limit30 ≤ r.date))
  else if tf = .last90Days then db.filter (fun r => decide (limit90 ≤ r.date))
  else if tf = .thisYear then db.filter (fun r => decide (yearStart ≤ r.date))
  else db

/-- ORDER BY date DESC of get_activities (SQLite leaves ties unspecified; the
embedding uses a stable sort by descending date). -/
def sortByDateDesc {P : Type} (l : List (StoredRow P)) : List (StoredRow P) :=
  List.insertionSort (fun a b => b.date ≤ a.date) l

/-- Row loop of get_activities: d = json.loads(row[0]); d['db_hash'] = row[1];
results.append(d).  There is no per-row exception handling, so a json.loads
failure (a row whose json_data is none) raises out of the whole call, modelled
by parseRows returning none. -/
def parseRows {P : Type} : List (StoredRow P) → Option (List (P × String))
  | [] => some []
  | r :: rest =>
    match r.json_data with
    | none => none
    | some p => (parseRows rest).map (fun out => (p, r.hash) :: out)

/-- Embedding of DatabaseManager.get_activities: WHERE selection, ORDER BY date
DESC, then the per-row json.loads loop. -/
def getActivities {P : Type} (db : List (StoredRow P)) (tf : Timeframe)
    (sid : Option ℤ) (limit30 limit90 yearStart : ℤ) :
    Option (List (P × String)) :=
  parseRows (sortByDateDesc (selectWindow db tf sid limit30 limit90 yearStart))

/-- Concrete store with a single row whose session id is 7, exercising the
Last Import query. -/
def storeOneSession7 : List (StoredRow ℕ) :=
  [{ hash := "h1", filename := "a.fit", date := 1, json_data := some 0,
     session_id := 7 }]

/-- Concrete store holding one well-formed and one malformed (json_data none)
row, exercising the per-row corruption behaviour. -/
def storeGoodAndBad : List (StoredRow ℕ) :=
  [{ hash := "g1", filename := "good.fit", date := 1, json_data := some 0,
     session_id := 7 },
   { hash := "b1", filename := "bad.fit", date := 2, json_data := none,
     session_id := 7 }]

/-- Concrete store with rows from two different import sessions. -/
def storeTwoSessions : List (StoredRow ℕ) :=
  [{ hash := "h1", filename := "a.fit", date := 1, json_data := some 10,
     session_id := 7 },
   { hash := "h2", filename := "b.fit", date := 2, json_data := some 20,
     session_id := 8 }]

/-! ### Content hashing and batch ingestion (gui.py calculate_file_hash and
GarminAnalyzerApp.process_folder_thread) -/

/-- Successive 65536-byte reads of the while loop in calculate_file_hash. -/
def fileChunks : List ℕ → List (List ℕ)
  | [] => []
  | b :: bs => List.take 65536 (b :: bs) :: fileChunks (List.drop 65536 (b :: bs))
termination_by l => l.length
decreasing_by
  simp only [List.length_drop, List.length_cons]
  omega

/-- Embedding of calculate_file_hash: hashlib.sha256 is an abstract digest
function H over byte strings; hasher.update concatenates the chunks fed to it,
and hexdigest applies H to that concatenation. -/
def calculate_file_hash (H : List ℕ → String) (bytes : List ℕ) : String :=
  H (fileChunks bytes).flatten

/-- One .fit file handed to process_folder_thread: its name and raw bytes. -/
structure FitFile where
  name : String
  bytes : List ℕ
deriving DecidableEq

/-- Output of the external FitAnalyzer.analyze_file for one file (spec §6): the
fields insert_activity reads (filename, date) plus the metrics payload; the
whole result is absent (None) for a silent non-running skip. -/
structure Analysis (P : Type) where
  filename : String
  date : ℤ
  payload : P
deriving DecidableEq

/-- SELECT 1 FROM activities WHERE hash = ? (DatabaseManager.activity_exists). -/
def activity_exists {P : Type} (db : List (StoredRow P)) (fhash : String) : Bool :=
  db.any (fun r => r.hash == fhash)

/-- INSERT OR REPLACE of DatabaseManager.insert_activity: any row conflicting
on the primary key is replaced by the new whole row.  json.dumps of an analyzer
result always parses back, so the stored payload is well-formed (some). -/
def insert_activity {P : Type} (db : List (StoredRow P)) (a : Analysis P)
    (fhash : String) (sid : ℤ) : List (StoredRow P) :=
  (db.filter (fun r => !(r.hash == fhash))) ++
    [{ hash := fhash, filename := a.filename, date := a.date,
       json_data := some a.payload, session_id := sid }]

/-- Per-file step of process_folder_thread: hash the bytes, check existence
before any extraction, then extract and insert only when the hash is new.  The
Bool reports whether the file counted as new (new_count += 1); a duplicate is
the (db, false) branch, taken without extracting and without error. -/
def ingestFile {P : Type} (H : List ℕ → String)
    (analyze : FitFile → Option (Analysis P)) (db : List (StoredRow P))
    (f : FitFile) (sid : ℤ) : List (StoredRow P) × Bool :=
  let fhash := calculate_file_hash H f.bytes
  if activity_exists db fhash then (db, false)
  else
    match analyze f with
    | some a => (insert_activity db a fhash sid, true)
    | none => (db, false)

/-- Number of stored rows carrying a given content hash. -/
def countHash {P : Type} (db : List (StoredRow P)) (fhash : String) : ℕ :=
  (db.filter (fun r => r.hash == fhash)).length

/-- Primary-key invariant of the activities table: every hash occurs in at most
one row. -/
def WellKeyed {P : Type} (db : List (StoredRow P)) : Prop :=
  ∀ fhash : String, countHash db fhash ≤ 1

/-- Concrete digest function for exercising the ingestion model. -/
def sampleH : List ℕ → String := fun bs => toString bs.length

/-- Concrete stand-in for the external extractor: every file analyzes
successfully. -/
def sampleAnalyze : FitFile → Option (Analysis ℕ) :=
  fun f => some { filename := f.name, date := 1, payload := 0 }

/-- A concrete .fit file. -/
def fileA : FitFile := { name := "a.fit", bytes := [1, 2, 3] }

/-- A second file, byte-identical to fileA but under another name. -/
def fileB : FitFile := { name := "b.fit", bytes := [1, 2, 3] }

/-! ### Observable session state (state.py AppState)

Attribute values are modelled over an abstract type V; subscriber callbacks are
opaque identifiers (ℕ).  Ordinary attribute storage (object.__setattr__) and
the internal _subscribers registry are disjoint namespaces in CPython objects,
modelled as the two separate fields below. -/

/-- Observable state of state.py AppState: the plain attribute mapping and the
_subscribers dict (key, list of callbacks in registration order; a missing key
is the empty list, matching _subscribers.get(key, [])). -/
structure AppState (V : Type) where
  attrs : String → Option V
  subscribers : String → List ℕ

/-- The nine observed field names of AppState._OBSERVED_FIELDS. -/
def observedFields : List String :=
  ["timeframe", "sort_by", "sort_desc", "focus_mode_active",
   "entering_focus_mode", "volume_lens", "active_filters", "session_id",
   "import_in_progress"]

/-- object.__setattr__(self, name, value): a plain attribute write with no
notification. -/
def setAttr {V : Type} (s : AppState V) (name : String) (v : V) : AppState V :=
  { s with attrs := fun k => if k = name then some v else s.attrs k }

/-- AppState.subscribe: appends the callback to the bucket of the key unless it
is already registered. -/
def subscribe {V : Type} (s : AppState V) (key : String) (cb : ℕ) : AppState V :=
  if cb ∈ s.subscribers key then s
  else { s with subscribers :=
    fun k => if k = key then s.subscribers key ++ [cb] else s.subscribers k }

/-- AppState.unsubscribe: bucket = self._subscribers.get(key); if bucket and
callback in bucket: bucket.remove(callback) — removes the first occurrence,
and is a no-op when the bucket is missing or empty or the callback was never
registered. -/
def unsubscribe {V : Type} (s : AppState V) (key : String) (cb : ℕ) : AppState V :=
  if s.subscribers key ≠ [] ∧ cb ∈ s.subscribers key then
    { s with subscribers :=
      fun k => if k = key then (s.subscribers key).erase cb else s.subscribers k }
  else s

/-- Observable events during a batch_set call: attribute writes and subscriber
invocations (callback, key, new value). -/
inductive Event (V : Type) where
  | write (name : String) (value : V)
  | invoke (cb : ℕ) (name : String) (value : V)
deriving DecidableEq

/-- AppState._notify: invokes every subscriber registered for the key, in
registration order, with the new value; a raising subscriber is caught and
logged, so every callback in the bucket is invoked unconditionally. -/
def notifyEvents {V : Type} (s : AppState V) (key : String) (v : V) :
    List (Event V) :=
  (s.subscribers key).map (fun cb => Event.invoke cb key v)

/-- Notification loop at the end of AppState.batch_set: kwargs in order, a seen
set deduplicating names, and a notification only for observed fields. -/
def notifyPass {V : Type} (s : AppState V) :
    List (String × V) → List String → List (Event V)
  | [], _ => []
  | (name, v) :: rest, seen =>
    if name ∉ seen ∧ name ∈ observedFields then
      notifyEvents s name v ++ notifyPass s rest (seen ++ [name])
    else
      notifyPass s rest seen

/-- AppState.batch_set: every field is written first via object.__setattr__
with notifications suppressed (the initializing flag), then the deduplicated
notification pass runs.  The event trace records that order.  Writes never
touch the subscriber registry, so the pass reads the registry of entry. -/
def batchSet {V : Type} (s : AppState V) (kwargs : List (String × V)) :
    AppState V × List (Event V) :=
  (kwargs.foldl (fun acc nv => setAttr acc nv.1 nv.2) s,
   kwargs.map (fun nv => Event.write nv.1 nv.2) ++ notifyPass s kwargs [])

/-- AppState with no attributes set and no subscribers, for exercising the
observer API. -/
def emptyState (V : Type) : AppState V :=
  { attrs := fun _ => none, subscribers := fun _ => [] }

/-- AppState with a single subscriber (callback 0) on the timeframe field. -/
def sampleState : AppState ℕ :=
  { attrs := fun _ => none,
    subscribers := fun k => if k = "timeframe" then [0] else [] }

end GarminFit

namespace GarminFit

/-- C3: classifyQuadrant assigns exactly one of the four verdicts per the table
(efficiency ≥ mean and decoupling ≤ 5 is race-ready; ≥ mean and > 5 is
expensive-speed; < mean and ≤ 5 is base-maintenance; < mean and > 5 is
struggling), and an activity exactly at the mean with decoupling exactly 5 is
race-ready. -/
theorem C3_classifyQuadrant_table :
    (∀ e d mean : ℚ,
      (classifyQuadrant e d mean = .raceReady ↔ e ≥ mean ∧ d ≤ 5) ∧
      (classifyQuadrant e d mean = .expensiveSpeed ↔ e ≥ mean ∧ d > 5) ∧
      (classifyQuadrant e d mean = .baseMaintenance ↔ e < mean ∧ d ≤ 5) ∧
      (classifyQuadrant e d mean = .struggling ↔ e < mean ∧ d > 5)) ∧
    (∀ m : ℚ, classifyQuadrant m 5 m = .raceReady) := by
  constructor
  · intro e d mean
    rcases le_or_lt mean e with he | he <;> rcases le_or_lt d 5 with hd | hd
    · simp [classifyQuadrant, he, hd, he.not_lt, hd.not_lt]
    · simp [classifyQuadrant, he, hd, he.not_lt, hd.not_le]
    · simp [classifyQuadrant, he, hd, he.not_le, hd.not_lt]
    · simp [classifyQuadrant, he, hd, he.not_le, hd.not_le]
  · intro m
    simp [classifyQuadrant]

/-- C4: classifyForm is total over the five form keys, with bands decided in the
documented order, so that 170 is ELITE_FORM, 169 is GOOD_FORM, 135 is HEAVY_FEET
and 134 is HIKING_REST. -/
theorem C4_classifyForm_bands :
    (∀ c : ℚ,
      (classifyForm c = .ELITE_FORM ↔ 170 ≤ c) ∧
      (classifyForm c = .GOOD_FORM ↔ 160 ≤ c ∧ c < 170) ∧
      (classifyForm c = .HIKING_REST ↔ c < 135) ∧
      (classifyForm c = .HEAVY_FEET ↔ 135 ≤ c ∧ c < 155) ∧
      (classifyForm c = .PLODDING ↔ 155 ≤ c ∧ c < 160)) ∧
    classifyForm 170 = .ELITE_FORM ∧ classifyForm 169 = .GOOD_FORM ∧
    classifyForm 135 = .HEAVY_FEET ∧ classifyForm 134 = .HIKING_REST := by
  refine ⟨?_, by decide, by decide, by decide, by decide⟩
  intro c
  unfold classifyForm
  split_ifs with h1 h2 h3 h4 <;>
    refine ⟨?_, ?_, ?_, ?_, ?_⟩ <;>
    simp only [reduceCtorEq, false_iff, true_iff, not_and, not_lt, ge_iff_le] <;>
    push_neg at * <;>
    first
      | linarith
      | (intro h; linarith)
      | (constructor <;> linarith)

/-- C5: classifyLoad is total over the four load categories with bands closed on
the lower side, so that 75 is BASE, 74.999 is RECOVERY, 300 is OVERREACHING and
299.999 is OVERLOAD. -/
theorem C5_classifyLoad_bands :
    (∀ x : ℚ,
      (classifyLoad x = .RECOVERY ↔ x < 75) ∧
      (classifyLoad x = .BASE ↔ 75 ≤ x ∧ x < 150) ∧
      (classifyLoad x = .OVERLOAD ↔ 150 ≤ x ∧ x < 300) ∧
      (classifyLoad x = .OVERREACHING ↔ 300 ≤ x)) ∧
    classifyLoad 75 = .BASE ∧ classifyLoad (74999 / 1000) = .RECOVERY ∧
    classifyLoad 300 = .OVERREACHING ∧ classifyLoad (299999 / 1000) = .OVERLOAD := by
  refine ⟨?_, by norm_num [classifyLoad], by norm_num [classifyLoad],
    by norm_num [classifyLoad], by norm_num [classifyLoad]⟩
  intro x
  unfold classifyLoad
  split_ifs with h1 h2 h3 <;>
    refine ⟨?_, ?_, ?_, ?_⟩ <;>
    simp only [reduceCtorEq, false_iff, true_iff, not_and, not_lt] <;>
    push_neg at * <;>
    first
      | linarith
      | (intro h; linarith)
      | (constructor <;> linarith)

/-- C8: classifyTrainingEffect tests its checks in short-circuit priority order
with anaerobic before aerobic (anaerobic ≥ 3.5 MAX_POWER; else anaerobic ≥ 2.5
and close-to-or-exceeding aerobic ANAEROBIC; else aerobic ≥ 4.2 VO2_MAX; else
aerobic ≥ 3.5 THRESHOLD), and returns an explicit none, distinct from every
valid key, when no check fires. -/
theorem C8_classifyTrainingEffect_priority :
    ∀ (close : ℚ → ℚ → Bool) (aero anaero : ℚ),
      (classifyTrainingEffect close aero anaero = some .MAX_POWER ↔ anaero ≥ 3.5) ∧
      (classifyTrainingEffect close aero anaero = some .ANAEROBIC ↔
        ¬(anaero ≥ 3.5) ∧ (anaero ≥ 2.5 ∧ close anaero aero = true)) ∧
      (classifyTrainingEffect close aero anaero = some .VO2_MAX ↔
        ¬(anaero ≥ 3.5) ∧ ¬(anaero ≥ 2.5 ∧ close anaero aero = true) ∧ aero ≥ 4.2) ∧
      (classifyTrainingEffect close aero anaero = some .THRESHOLD ↔
        ¬(anaero ≥ 3.5) ∧ ¬(anaero ≥ 2.5 ∧ close anaero aero = true) ∧
        ¬(aero ≥ 4.2) ∧ aero ≥ 3.5) ∧
      (classifyTrainingEffect close aero anaero = none ↔
        ¬(anaero ≥ 3.5) ∧ ¬(anaero ≥ 2.5 ∧ close anaero aero = true) ∧
        ¬(aero ≥ 4.2) ∧ ¬(aero ≥ 3.5)) ∧
      (∀ k : TELabel, (none : Option TELabel) ≠ some k) := by
  intro close aero anaero
  unfold classifyTrainingEffect
  split_ifs with h1 h2 h3 h4 <;>
    refine ⟨?_, ?_, ?_, ?_, ?_, fun k h => Option.noConfusion h⟩ <;>
    simp only [Option.some.injEq, reduceCtorEq, eq_self_iff_true, false_iff,
      iff_false, true_iff, iff_true] <;>
    tauto

/-- Helper: folding min over copies of c, starting from c, stays at c. -/
theorem foldl_min_const (c : ℚ) :
    ∀ l : List ℚ, (∀ t ∈ l, t = c) → l.foldl min c = c
  | [], _ => rfl
  | a :: l, h => by
    have ha : a = c := h a (List.mem_cons_self a l)
    have hm : min c a = c := by rw [ha, min_self]
    simpa [hm] using foldl_min_const c l (fun t ht => h t (List.mem_cons_of_mem a ht))

/-- Helper: the minimum of a nonempty constant list is that constant. -/
theorem minDate_const (c : ℚ) (ts : List ℚ) (h : ∀ t ∈ ts, t = c) (hne : ts ≠ []) :
    minDate ts = c := by
  cases ts with
  | nil => exact absurd rfl hne
  | cons a l =>
    have ha : a = c := h a (List.mem_cons_self a l)
    show l.foldl min a = c
    rw [ha]
    exact foldl_min_const c l (fun t ht => h t (List.mem_cons_of_mem a ht))

/-- Helper: with fewer than two distinct dates, the regression fails (the
x-variance denominator vanishes or there are not even two samples). -/
theorem slopeOf_of_allEq (pts : List (ℚ × ℚ))
    (h : ∀ p ∈ pts, ∀ q ∈ pts, p.1 = q.1) : slopeOf pts = none := by
  by_cases hl : pts.length < 2
  · simp [slopeOf, hl]
  · obtain ⟨p0, hp0⟩ : ∃ p0, p0 ∈ pts := by
      cases pts with
      | nil => simp at hl
      | cons a l => exact ⟨a, List.mem_cons_self a l⟩
    have hdates : ∀ t ∈ pts.map Prod.fst, t = p0.1 := by
      intro t ht
      obtain ⟨q, hq, rfl⟩ := List.mem_map.1 ht
      exact h q hq p0 hp0
    have hmapne : pts.map Prod.fst ≠ [] := by
      cases pts with
      | nil => simp at hl
      | cons a l => simp
    have hmin : minDate (pts.map Prod.fst) = p0.1 :=
      minDate_const _ _ hdates hmapne
    have hxs : ∀ x ∈ pts.map (fun p => p.1 - minDate (pts.map Prod.fst)), x = 0 := by
      intro x hx
      obtain ⟨q, hq, rfl⟩ := List.mem_map.1 hx
      rw [hmin, h q hq p0 hp0, sub_self]
    have hsx : (pts.map (fun p => p.1 - minDate (pts.map Prod.fst))).sum = 0 :=
      List.sum_eq_zero hxs
    have hsxx : ((pts.map (fun p => p.1 - minDate (pts.map Prod.fst))).map
        (fun x => x * x)).sum = 0 := by
      apply List.sum_eq_zero
      intro y hy
      obtain ⟨x, hx, rfl⟩ := List.mem_map.1 hy
      rw [hxs x hx, mul_zero]
    simp only [slopeOf, hl, if_false]
    rw [if_pos]
    rw [hsx, hsxx]
    ring

/-- Helper: the regression slope of exactly two points with increasing dates is
the difference quotient. -/
theorem slopeOf_pair (t1 y1 t2 y2 : ℚ) (h : t1 < t2) :
    slopeOf [(t1, y1), (t2, y2)] = some ((y2 - y1) / (t2 - t1)) := by
  have hne : t2 - t1 ≠ 0 := sub_ne_zero.2 h.ne'
  have hmin : min t1 t2 = t1 := min_eq_left h.le
  have hden : (((2 : ℕ) : ℚ) * ((t1 - t1) * (t1 - t1) + ((t2 - t1) * (t2 - t1) + 0)) -
      (t1 - t1 + (t2 - t1 + 0)) * (t1 - t1 + (t2 - t1 + 0))) ≠ 0 := by
    have hsq : (((2 : ℕ) : ℚ) * ((t1 - t1) * (t1 - t1) + ((t2 - t1) * (t2 - t1) + 0)) -
        (t1 - t1 + (t2 - t1 + 0)) * (t1 - t1 + (t2 - t1 + 0))) = (t2 - t1) * (t2 - t1) := by
      push_cast
      ring
    rw [hsq]
    exact mul_ne_zero hne hne
  simp only [slopeOf, minDate, List.length_cons, List.length_nil, List.map_cons,
    List.map_nil, List.foldl, List.sum_cons, List.sum_nil, List.zipWith, hmin]
  rw [if_neg (by norm_num), if_neg hden]
  congr 1
  rw [div_eq_div_iff hden hne]
  push_cast
  ring

/-- Helper: computeTrend on a successful regression is the dead-band chain. -/
theorem computeTrend_some (pts : List (ℚ × ℚ)) (s : ℚ) (h : slopeOf pts = some s) :
    computeTrend pts =
      if s > trendEps then .improving
      else if s < -trendEps then .declining
      else .stable := by
  unfold computeTrend
  rw [h]

/-- C6 counterexample: two activities one day (86400 s) apart whose efficiency
strictly increases (1 to 1.000001) are classified stable, not improving — the
fitted slope is positive but falls inside the dead-band, refuting the claim
that increasing efficiency over two activities always yields improving. -/
theorem C6_counterexample :
    (0 : ℚ) < 86400 ∧ (1 : ℚ) < 1000001 / 1000000 ∧
    computeTrend [(0, 1), (86400, 1000001 / 1000000)] = .stable := by
  refine ⟨by norm_num, by norm_num, ?_⟩
  have hs := slopeOf_pair 0 1 86400 (1000001 / 1000000) (by norm_num)
  unfold computeTrend
  rw [hs]
  norm_num [trendEps]

/-- C6 (amended): with fewer than two distinct dates the trend is
insufficient-data; two activities with increasing efficiency over time whose
fitted slope exceeds the dead-band epsilon yield improving with a positive
slope; and whenever the slope magnitude is within the symmetric dead-band the
trend is stable. -/
theorem C6_computeTrend_amended :
    (∀ pts : List (ℚ × ℚ), (∀ p ∈ pts, ∀ q ∈ pts, p.1 = q.1) →
        computeTrend pts = .insufficientData) ∧
    (∀ t1 y1 t2 y2 : ℚ, t1 < t2 → y1 < y2 →
        trendEps < (y2 - y1) / (t2 - t1) →
        slopeOf [(t1, y1), (t2, y2)] = some ((y2 - y1) / (t2 - t1)) ∧
        0 < (y2 - y1) / (t2 - t1) ∧
        computeTrend [(t1, y1), (t2, y2)] = .improving) ∧
    (∀ (pts : List (ℚ × ℚ)) (s : ℚ), slopeOf pts = some s → |s| ≤ trendEps →
        computeTrend pts = .stable) := by
  refine ⟨?_, ?_, ?_⟩
  · intro pts h
    unfold computeTrend
    rw [slopeOf_of_allEq pts h]
  · intro t1 y1 t2 y2 ht _hy hslope
    have hs := slopeOf_pair t1 y1 t2 y2 ht
    have heps : (0 : ℚ) < trendEps := by norm_num [trendEps]
    refine ⟨hs, lt_trans heps hslope, ?_⟩
    rw [computeTrend_some _ _ hs, if_pos hslope]
  · intro pts s hs habs
    obtain ⟨hlo, hhi⟩ := abs_le.1 habs
    rw [computeTrend_some _ _ hs, if_neg (not_lt.2 hhi), if_neg (not_lt.2 hlo)]

/-- C6 witness: concrete instances of the three amended parts — a window with a
single repeated date is insufficient-data, a clearly improving pair is
improving, and a flat pair is stable. -/
theorem C6_witness :
    computeTrend [((0 : ℚ), (1 : ℚ)), (0, 2)] = .insufficientData ∧
    computeTrend [((0 : ℚ), (1 : ℚ)), (1, 2)] = .improving ∧
    computeTrend [((0 : ℚ), (1 : ℚ)), (1, 1)] = .stable := by
  refine ⟨?_, ?_, ?_⟩
  · exact C6_computeTrend_amended.1 _ (by decide)
  · exact (C6_computeTrend_amended.2.1 0 1 1 2 (by norm_num) (by norm_num)
      (by norm_num [trendEps])).2.2
  · exact C6_computeTrend_amended.2.2 _ 0
      (by simpa using slopeOf_pair 0 1 1 1 (by norm_num))
      (by norm_num [trendEps])

/-- Helper: sorting by descending date does not change membership. -/
theorem mem_sortByDateDesc {P : Type} (l : List (StoredRow P)) (r : StoredRow P) :
    r ∈ sortByDateDesc l ↔ r ∈ l :=
  List.mem_insertionSort _

/-- Helper: one malformed stored payload anywhere in the retrieved rows makes
the whole row loop raise. -/
theorem parseRows_eq_none {P : Type} (l : List (StoredRow P))
    (h : ∃ r ∈ l, r.json_data = none) : parseRows l = none := by
  induction l with
  | nil =>
    obtain ⟨r, hr, _⟩ := h
    simp at hr
  | cons a rest ih =>
    obtain ⟨r, hr, hnone⟩ := h
    rcases List.mem_cons.1 hr with rfl | hmem
    · simp [parseRows, hnone]
    · cases ha : a.json_data with
      | none => simp [parseRows, ha]
      | some p => simp [parseRows, ha, ih ⟨r, hmem, hnone⟩]

/-- Helper: when every retrieved row parses, the row loop returns the list of
(payload, hash) pairs of exactly those rows. -/
theorem parseRows_of_allSome {P : Type} (l : List (StoredRow P))
    (h : ∀ r ∈ l, (r.json_data).isSome) :
    ∃ out, parseRows l = some out ∧
      ∀ pr : P × String,
        pr ∈ out ↔ ∃ r ∈ l, r.json_data = some pr.1 ∧ r.hash = pr.2 := by
  induction l with
  | nil => exact ⟨[], rfl, by simp⟩
  | cons a rest ih =>
    obtain ⟨p, hp⟩ := Option.isSome_iff_exists.1 (h a (List.mem_cons_self a rest))
    obtain ⟨out, hout, hmemo⟩ := ih (fun r hr => h r (List.mem_cons_of_mem a hr))
    refine ⟨(p, a.hash) :: out, by simp [parseRows, hp, hout], ?_⟩
    intro pr
    simp only [List.mem_cons, hmemo]
    constructor
    · rintro (rfl | ⟨r, hr, h1, h2⟩)
      · exact ⟨a, Or.inl rfl, by simp [hp], rfl⟩
      · exact ⟨r, Or.inr hr, h1, h2⟩
    · rintro ⟨r, rfl | hmem, h1, h2⟩
      · left
        obtain ⟨pr1, pr2⟩ := pr
        rw [hp] at h1
        obtain rfl := Option.some.inj h1
        rw [h2]
      · right
        exact ⟨r, hmem, h1, h2⟩

/-- C1 counterexample: a store holding one row with session id 7, queried with
window Last Import and an absent (None) session id, returns that row — the
whole all-time data — and not the empty sequence the claim demands. -/
theorem C1_counterexample :
    getActivities storeOneSession7 .lastImport none 0 0 0 ≠ some [] ∧
    getActivities storeOneSession7 .lastImport none 0 0 0 =
      getActivities storeOneSession7 .allTime none 0 0 0 ∧
    getActivities storeOneSession7 .lastImport none 0 0 0 = some [(0, "h1")] := by
  refine ⟨by decide, by decide, by decide⟩

/-- C1 (amended): a Last Import query with an absent (or zero, hence falsy)
session id silently returns the unfiltered all-time data; with a nonzero
session id X it returns exactly the rows whose stored session id equals X. -/
theorem C1_lastImport_amended :
    (∀ (P : Type) (db : List (StoredRow P)) (sid : Option ℤ) (l30 l90 ys : ℤ),
      truthy sid = false →
      getActivities db .lastImport sid l30 l90 ys =
        getActivities db .allTime sid l30 l90 ys) ∧
    (∀ (P : Type) (db : List (StoredRow P)) (x l30 l90 ys : ℤ), x ≠ 0 →
      (∀ r ∈ db, (r.json_data).isSome) →
      ∃ out, getActivities db .lastImport (some x) l30 l90 ys = some out ∧
        ∀ pr : P × String, pr ∈ out ↔
          ∃ r ∈ db, r.session_id = x ∧ r.json_data = some pr.1 ∧ r.hash = pr.2) := by
  constructor
  · intro P db sid l30 l90 ys hsid
    simp [getActivities, selectWindow, hsid]
  · intro P db x l30 l90 ys hx hall
    have hsel : selectWindow db .lastImport (some x) l30 l90 ys =
        db.filter (fun r => decide (some r.session_id = some x)) := by
      simp [selectWindow, truthy, hx]
    have hall2 : ∀ r ∈ sortByDateDesc
        (db.filter (fun r => decide (some r.session_id = some x))),
        (r.json_data).isSome := by
      intro r hr
      exact hall r (List.mem_of_mem_filter ((mem_sortByDateDesc _ _).1 hr))
    obtain ⟨out, hout, hmemo⟩ := parseRows_of_allSome _ hall2
    refine ⟨out, by rw [getActivities, hsel]; exact hout, ?_⟩
    intro pr
    rw [hmemo pr]
    constructor
    · rintro ⟨r, hr, h1, h2⟩
      have hmf := List.mem_filter.1 ((mem_sortByDateDesc _ _).1 hr)
      have hsid : some r.session_id = some x := of_decide_eq_true hmf.2
      exact ⟨r, hmf.1, Option.some.inj hsid, h1, h2⟩
    · rintro ⟨r, hr, hsid, h1, h2⟩
      refine ⟨r, (mem_sortByDateDesc _ _).2 (List.mem_filter.2 ⟨hr, ?_⟩), h1, h2⟩
      simp [hsid]

/-- C1 witness: the amended theorem at a concrete store, for both falsy session
ids (absent and zero, each collapsing to the all-time query) and for the
nonzero session id 7. -/
theorem C1_witness :
    getActivities storeOneSession7 .lastImport none 0 0 0 =
      getActivities storeOneSession7 .allTime none 0 0 0 ∧
    getActivities storeOneSession7 .lastImport (some 0) 0 0 0 =
      getActivities storeOneSession7 .allTime (some 0) 0 0 0 ∧
    ∃ out, getActivities storeTwoSessions .lastImport (some 7) 0 0 0 = some out ∧
      ∀ pr : ℕ × String, pr ∈ out ↔
        ∃ r ∈ storeTwoSessions, r.session_id = 7 ∧ r.json_data = some pr.1 ∧
          r.hash = pr.2 :=
  ⟨C1_lastImport_amended.1 ℕ storeOneSession7 none 0 0 0 rfl,
   C1_lastImport_amended.1 ℕ storeOneSession7 (some 0) 0 0 0 (by decide),
   C1_lastImport_amended.2 ℕ storeTwoSessions 7 0 0 0 (by decide) (by decide)⟩

/-- C2 counterexample: a store with one well-formed and one malformed row makes
the whole all-time query fail (json.loads raises out of get_activities), so the
well-formed row is not returned, refuting per-row isolation. -/
theorem C2_counterexample :
    getActivities storeGoodAndBad .allTime none 0 0 0 = none ∧
    (∃ r ∈ storeGoodAndBad, (r.json_data).isSome) := by
  exact ⟨by decide, by decide⟩

/-- C2 (amended): one malformed stored payload in the selected window aborts
the whole retrieval (the query returns nothing at all); only a window whose
rows all parse is returned. -/
theorem C2_badRow_aborts :
    (∀ (P : Type) (db : List (StoredRow P)) (tf : Timeframe) (sid : Option ℤ)
        (l30 l90 ys : ℤ) (r : StoredRow P),
      r ∈ selectWindow db tf sid l30 l90 ys → r.json_data = none →
      getActivities db tf sid l30 l90 ys = none) ∧
    (∀ (P : Type) (db : List (StoredRow P)) (tf : Timeframe) (sid : Option ℤ)
        (l30 l90 ys : ℤ),
      (∀ r ∈ selectWindow db tf sid l30 l90 ys, (r.json_data).isSome) →
      ∃ out, getActivities db tf sid l30 l90 ys = some out) := by
  constructor
  · intro P db tf sid l30 l90 ys r hr hnone
    unfold getActivities
    exact parseRows_eq_none _ ⟨r, (mem_sortByDateDesc _ _).2 hr, hnone⟩
  · intro P db tf sid l30 l90 ys hall
    obtain ⟨out, hout, _⟩ := parseRows_of_allSome _
      (fun r hr => hall r ((mem_sortByDateDesc _ _).1 hr))
    exact ⟨out, hout⟩

/-- C2 witness: the amended theorem applied to the concrete corrupt store (its
malformed row aborts the query) and to a fully well-formed store (the window is
returned). -/
theorem C2_witness :
    getActivities storeGoodAndBad .allTime none 0 0 0 = none ∧
    (∃ out, getActivities storeTwoSessions .allTime none 0 0 0 = some out) := by
  constructor
  · exact C2_badRow_aborts.1 ℕ storeGoodAndBad .allTime none 0 0 0
      { hash := "b1", filename := "bad.fit", date := 2, json_data := none,
        session_id := 7 } (by decide) rfl
  · exact C2_badRow_aborts.2 ℕ storeTwoSessions .allTime none 0 0 0 (by decide)

/-- Helper: the 65536-byte reads concatenate back to the whole file, so the
digest depends only on the raw bytes. -/
theorem fileChunks_flatten (bytes : List ℕ) : (fileChunks bytes).flatten = bytes := by
  induction bytes using fileChunks.induct with
  | case1 => simp [fileChunks]
  | case2 b bs ih =>
    rw [fileChunks, List.flatten_cons, ih, List.take_append_drop]

/-- Helper: after an insert-or-replace, exactly one row carries the inserted
hash. -/
theorem countHash_insert {P : Type} (db : List (StoredRow P)) (a : Analysis P)
    (fhash : String) (sid : ℤ) :
    countHash (insert_activity db a fhash sid) fhash = 1 := by
  simp [countHash, insert_activity, List.filter_append, List.filter_filter]

/-- Helper: the existence check succeeds exactly when some row carries the
hash. -/
theorem activity_exists_iff {P : Type} (db : List (StoredRow P)) (fhash : String) :
    activity_exists db fhash = true ↔ 0 < countHash db fhash := by
  constructor
  · intro hx
    obtain ⟨r, hr, hp⟩ := List.any_eq_true.1 hx
    exact List.length_pos_of_mem (List.mem_filter.2 ⟨hr, hp⟩)
  · intro hpos
    obtain ⟨r, hr⟩ := List.exists_mem_of_length_pos hpos
    obtain ⟨hmem, hp⟩ := List.mem_filter.1 hr
    exact List.any_eq_true.2 ⟨r, hmem, hp⟩

/-- Helper: a file whose hash is already stored is skipped and not counted as
new. -/
theorem ingestFile_of_exists {P : Type} (H : List ℕ → String)
    (analyze : FitFile → Option (Analysis P)) (db : List (StoredRow P))
    (f : FitFile) (sid : ℤ)
    (h : activity_exists db (calculate_file_hash H f.bytes) = true) :
    ingestFile H analyze db f sid = (db, false) := by
  unfold ingestFile
  simp [h]

/-- Helper: a file with a new hash and a successful extraction is inserted and
counted as new. -/
theorem ingestFile_of_new {P : Type} (H : List ℕ → String)
    (analyze : FitFile → Option (Analysis P)) (db : List (StoredRow P))
    (f : FitFile) (sid : ℤ) (a : Analysis P)
    (h : activity_exists db (calculate_file_hash H f.bytes) = false)
    (ha : analyze f = some a) :
    ingestFile H analyze db f sid =
      (insert_activity db a (calculate_file_hash H f.bytes) sid, true) := by
  unfold ingestFile
  simp [h, ha]

/-- C7: the content hash is a deterministic function of the raw bytes (the
chunked digest of byte-identical files coincides), and on a well-keyed store,
ingesting a file and then a byte-identical file leaves the store of the first
ingestion untouched with exactly one row under that content hash; the second
ingestion reports not-new (the duplicate outcome), not an error. -/
theorem C7_duplicate_ingest :
    ∀ (P : Type) (H : List ℕ → String) (analyze : FitFile → Option (Analysis P))
      (db : List (StoredRow P)) (f g : FitFile) (a : Analysis P) (sid1 sid2 : ℤ),
      WellKeyed db → analyze f = some a → g.bytes = f.bytes →
      calculate_file_hash H g.bytes = calculate_file_hash H f.bytes ∧
      ingestFile H analyze (ingestFile H analyze db f sid1).1 g sid2 =
        ((ingestFile H analyze db f sid1).1, false) ∧
      countHash (ingestFile H analyze db f sid1).1
        (calculate_file_hash H f.bytes) = 1 := by
  intro P H analyze db f g a sid1 sid2 hwk hana hgb
  have hash_eq : calculate_file_hash H g.bytes = calculate_file_hash H f.bytes := by
    rw [hgb]
  have hcount1 : countHash (ingestFile H analyze db f sid1).1
      (calculate_file_hash H f.bytes) = 1 := by
    cases hex : activity_exists db (calculate_file_hash H f.bytes) with
    | true =>
      rw [ingestFile_of_exists H analyze db f sid1 hex]
      have hge := (activity_exists_iff db (calculate_file_hash H f.bytes)).1 hex
      have hle := hwk (calculate_file_hash H f.bytes)
      exact le_antisymm hle hge
    | false =>
      rw [ingestFile_of_new H analyze db f sid1 a hex hana]
      exact countHash_insert db a (calculate_file_hash H f.bytes) sid1
  have hex1 : activity_exists (ingestFile H analyze db f sid1).1
      (calculate_file_hash H g.bytes) = true := by
    rw [hash_eq]
    exact (activity_exists_iff _ _).2 (by rw [hcount1]; norm_num)
  exact ⟨hash_eq, ingestFile_of_exists H analyze _ g sid2 hex1, hcount1⟩

/-- C7 witness: the theorem at a concrete digest function, extractor, empty
store and two byte-identical files imported in two batches (session ids 7 and
8). -/
theorem C7_witness :
    calculate_file_hash sampleH fileB.bytes =
      calculate_file_hash sampleH fileA.bytes ∧
    ingestFile sampleH sampleAnalyze
        (ingestFile sampleH sampleAnalyze [] fileA 7).1 fileB 8 =
      ((ingestFile sampleH sampleAnalyze [] fileA 7).1, false) ∧
    countHash (ingestFile sampleH sampleAnalyze [] fileA 7).1
      (calculate_file_hash sampleH fileA.bytes) = 1 :=
  C7_duplicate_ingest ℕ sampleH sampleAnalyze [] fileA fileB
    { filename := "a.fit", date := 1, payload := 0 } 7 8
    (fun fhash => by simp [countHash]) rfl rfl

/-- C10: subscribe is idempotent — registering the same callback twice for the
same key leaves the subscriber state identical to registering it once — and
unsubscribe with a callback never registered for the key leaves the state
unchanged. -/
theorem C10_subscribe_idempotent :
    ∀ (V : Type) (s : AppState V) (key : String) (cb : ℕ),
      subscribe (subscribe s key cb) key cb = subscribe s key cb ∧
      (cb ∉ s.subscribers key → unsubscribe s key cb = s) := by
  intro V s key cb
  constructor
  · by_cases h : cb ∈ s.subscribers key
    · have h1 : subscribe s key cb = s := by simp [subscribe, h]
      rw [h1]
      exact h1
    · have h1 : subscribe s key cb =
          { s with subscribers :=
            fun k => if k = key then s.subscribers key ++ [cb]
                     else s.subscribers k } := by
        simp [subscribe, h]
      rw [h1]
      simp [subscribe]
  · intro h
    simp [unsubscribe, h]

/-- C10 witness: the theorem at the empty state, key timeframe and callback 0
(which is not registered there). -/
theorem C10_witness :
    subscribe (subscribe (emptyState ℕ) "timeframe" 0) "timeframe" 0 =
      subscribe (emptyState ℕ) "timeframe" 0 ∧
    unsubscribe (emptyState ℕ) "timeframe" 0 = emptyState ℕ :=
  ⟨(C10_subscribe_idempotent ℕ (emptyState ℕ) "timeframe" 0).1,
   (C10_subscribe_idempotent ℕ (emptyState ℕ) "timeframe" 0).2
     (by simp [emptyState])⟩

/-- Helper: a fold of plain writes leaves every attribute not named in the
batch unchanged. -/
theorem foldl_setAttr_of_notMem {V : Type} :
    ∀ (kwargs : List (String × V)) (s : AppState V) (name : String),
      (∀ q ∈ kwargs, q.1 ≠ name) →
      (kwargs.foldl (fun acc nv => setAttr acc nv.1 nv.2) s).attrs name =
        s.attrs name := by
  intro kwargs
  induction kwargs with
  | nil => intro s name _; rfl
  | cons q rest ih =>
    intro s name h
    simp only [List.foldl_cons]
    rw [ih _ name (fun r hr => h r (List.mem_cons_of_mem q hr))]
    simp only [setAttr]
    exact if_neg (fun e => h q (List.mem_cons_self q rest) e.symm)

/-- Helper: after the write fold of a batch with distinct names, every batched
attribute holds its batched value. -/
theorem foldl_setAttr_writes {V : Type} :
    ∀ (kwargs : List (String × V)) (s : AppState V) (p : String × V),
      p ∈ kwargs → (kwargs.map Prod.fst).Nodup →
      (kwargs.foldl (fun acc nv => setAttr acc nv.1 nv.2) s).attrs p.1 =
        some p.2 := by
  intro kwargs
  induction kwargs with
  | nil => intro s p hp _; simp at hp
  | cons q rest ih =>
    intro s p hp hnd
    simp only [List.map_cons, List.nodup_cons] at hnd
    obtain ⟨hq, hrest⟩ := hnd
    rcases List.mem_cons.1 hp with rfl | hmem
    · simp only [List.foldl_cons]
      rw [foldl_setAttr_of_notMem rest _ p.1
        (fun r hr e => hq (e ▸ List.mem_map_of_mem Prod.fst hr))]
      simp [setAttr]
    · simp only [List.foldl_cons]
      exact ih _ p hmem hrest

/-- Helper: the notification pass emits only invocation events. -/
theorem notifyPass_all_invoke {V : Type} (s : AppState V) :
    ∀ (kwargs : List (String × V)) (seen : List String) (e : Event V),
      e ∈ notifyPass s kwargs seen → ∃ cb n v, e = Event.invoke cb n v := by
  intro kwargs
  induction kwargs with
  | nil => intro seen e he; simp [notifyPass] at he
  | cons q rest ih =>
    intro seen e he
    obtain ⟨name, v⟩ := q
    simp only [notifyPass] at he
    by_cases hc : name ∉ seen ∧ name ∈ observedFields
    · rw [if_pos hc] at he
      rcases List.mem_append.1 he with h1 | h2
      · obtain ⟨cb, _, rfl⟩ := List.mem_map.1 h1
        exact ⟨cb, name, v, rfl⟩
      · exact ih _ e h2
    · rw [if_neg hc] at he
      exact ih _ e he

/-- Helper: every invocation emitted by the pass comes from a batched entry of
an observed field whose bucket contains the callback. -/
theorem notifyPass_mem_invoke {V : Type} (s : AppState V) :
    ∀ (kwargs : List (String × V)) (seen : List String) (cb : ℕ) (n : String)
      (v' : V),
      Event.invoke cb n v' ∈ notifyPass s kwargs seen →
      (n, v') ∈ kwargs ∧ cb ∈ s.subscribers n ∧ n ∈ observedFields := by
  intro kwargs
  induction kwargs with
  | nil => intro seen cb n v' he; simp [notifyPass] at he
  | cons q rest ih =>
    intro seen cb n v' he
    obtain ⟨name, v⟩ := q
    simp only [notifyPass] at he
    by_cases hc : name ∉ seen ∧ name ∈ observedFields
    · rw [if_pos hc] at he
      rcases List.mem_append.1 he with h1 | h2
      · obtain ⟨cb', hcb', heq⟩ := List.mem_map.1 h1
        obtain ⟨rfl, rfl, rfl⟩ : cb' = cb ∧ name = n ∧ v = v' := by
          injection heq with a b c
          exact ⟨a, b, c⟩
        exact ⟨List.mem_cons_self _ _, hcb', hc.2⟩
      · obtain ⟨hm, hcb, hobs⟩ := ih _ cb n v' h2
        exact ⟨List.mem_cons_of_mem _ hm, hcb, hobs⟩
    · rw [if_neg hc] at he
      obtain ⟨hm, hcb, hobs⟩ := ih _ cb n v' he
      exact ⟨List.mem_cons_of_mem _ hm, hcb, hobs⟩

/-- Helper: once a name is in the seen set, the pass emits no invocation for
it. -/
theorem notifyPass_count_zero_of_seen {V : Type} [DecidableEq V]
    (s : AppState V) :
    ∀ (kwargs : List (String × V)) (seen : List String) (cb : ℕ) (n : String)
      (v : V), n ∈ seen →
      (notifyPass s kwargs seen).count (Event.invoke cb n v) = 0 := by
  intro kwargs
  induction kwargs with
  | nil => intro seen cb n v _; simp [notifyPass]
  | cons q rest ih =>
    intro seen cb n v hn
    obtain ⟨name, v0⟩ := q
    simp only [notifyPass]
    by_cases hc : name ∉ seen ∧ name ∈ observedFields
    · rw [if_pos hc, List.count_append]
      have hne : name ≠ n := fun e => hc.1 (e ▸ hn)
      have hblock : (notifyEvents s name v0).count (Event.invoke cb n v) = 0 := by
        rw [List.count_eq_zero]
        intro hmm
        obtain ⟨cb', _, heq⟩ := List.mem_map.1 hmm
        injection heq with _ b _
        exact hne b
      rw [hblock, ih (seen ++ [name]) cb n v (List.mem_append_left _ hn)]
    · rw [if_neg hc]
      exact ih seen cb n v hn

/-- Helper: under distinct batch names, a batched observed field notifies each
registered callback exactly once. -/
theorem notifyPass_count_one {V : Type} [DecidableEq V] (s : AppState V) :
    ∀ (kwargs : List (String × V)) (seen : List String) (n : String) (v : V)
      (cb : ℕ),
      (kwargs.map Prod.fst).Nodup → (∀ p ∈ kwargs, p.1 ∉ seen) →
      (n, v) ∈ kwargs → n ∈ observedFields →
      (s.subscribers n).Nodup → cb ∈ s.subscribers n →
      (notifyPass s kwargs seen).count (Event.invoke cb n v) = 1 := by
  intro kwargs
  induction kwargs with
  | nil => intro seen n v cb _ _ hmem _ _ _; simp at hmem
  | cons q rest ih =>
    intro seen n v cb hnd hseen hmem hobs hbnd hcb
    obtain ⟨name, v0⟩ := q
    simp only [List.map_cons, List.nodup_cons] at hnd
    obtain ⟨hq, hrest⟩ := hnd
    simp only [notifyPass]
    rcases List.mem_cons.1 hmem with heq | hmemr
    · obtain ⟨rfl, rfl⟩ : n = name ∧ v = v0 := by
        injection heq with a b
        exact ⟨a, b⟩
      have hcond : n ∉ seen ∧ n ∈ observedFields :=
        ⟨hseen (n, v) (List.mem_cons_self _ _), hobs⟩
      rw [if_pos hcond, List.count_append]
      have hinj : Function.Injective (fun c => Event.invoke (V := V) c n v) := by
        intro a b hab
        simpa using hab
      have hblock : (notifyEvents s n v).count (Event.invoke cb n v) = 1 := by
        unfold notifyEvents
        rw [List.count_map_of_injective _ _ hinj, List.count_eq_one_of_mem hbnd hcb]
      rw [hblock, notifyPass_count_zero_of_seen s rest (seen ++ [n]) cb n v
        (List.mem_append_right _ (List.mem_singleton_self n))]
    · have hne : name ≠ n := by
        intro e
        exact hq (e ▸ List.mem_map_of_mem Prod.fst hmemr)
      have hseenr : ∀ p ∈ rest, p.1 ∉ seen :=
        fun p hp => hseen p (List.mem_cons_of_mem _ hp)
      by_cases hc : name ∉ seen ∧ name ∈ observedFields
      · rw [if_pos hc, List.count_append]
        have hblock : (notifyEvents s name v0).count (Event.invoke cb n v) = 0 := by
          rw [List.count_eq_zero]
          intro hmm
          obtain ⟨cb', _, heq2⟩ := List.mem_map.1 hmm
          injection heq2 with _ b _
          exact hne b
        have hseenr2 : ∀ p ∈ rest, p.1 ∉ seen ++ [name] := by
          intro p hp hin
          rcases List.mem_append.1 hin with h1 | h2
          · exact hseenr p hp h1
          · rw [List.mem_singleton] at h2
            exact hq (h2 ▸ List.mem_map_of_mem Prod.fst hp)
        rw [hblock, ih (seen ++ [name]) n v cb hrest hseenr2 hmemr hobs hbnd hcb]
      · rw [if_neg hc]
        exact ih seen n v cb hrest hseenr hmemr hobs hbnd hcb

/-- Helper: with distinct batch names, a name determines its batched value. -/
theorem keys_nodup_unique {V : Type} :
    ∀ (kwargs : List (String × V)), (kwargs.map Prod.fst).Nodup →
      ∀ (n : String) (v v' : V), (n, v) ∈ kwargs → (n, v') ∈ kwargs → v = v' := by
  intro kwargs
  induction kwargs with
  | nil => intro _ n v v' h _; simp at h
  | cons q rest ih =>
    intro hnd n v v' h1 h2
    simp only [List.map_cons, List.nodup_cons] at hnd
    obtain ⟨hq, hrest⟩ := hnd
    rcases List.mem_cons.1 h1 with he1 | hm1 <;> rcases List.mem_cons.1 h2 with he2 | hm2
    · rw [← he2] at he1
      simpa using he1
    · obtain ⟨rfl, rfl⟩ : n = q.1 ∧ v = q.2 := by
        obtain ⟨a, b⟩ := q
        simpa using he1
      exact absurd (List.mem_map_of_mem Prod.fst hm2) hq
    · obtain ⟨rfl, rfl⟩ : n = q.1 ∧ v' = q.2 := by
        obtain ⟨a, b⟩ := q
        simpa using he2
      exact absurd (List.mem_map_of_mem Prod.fst hm1) hq
    · exact ih hrest n v v' hm1 hm2

/-- C9: batch_set writes every keyword field before any subscriber runs (the
event trace is all the writes followed only by invocations); afterwards each
subscriber registered for a distinct observed keyword field is invoked exactly
once, with the final written value and no other; and a keyword naming a
non-observed field triggers no invocation. -/
theorem C9_batchSet_semantics :
    ∀ (V : Type) [DecidableEq V] (s : AppState V) (kwargs : List (String × V)),
      (kwargs.map Prod.fst).Nodup →
      (∀ k, (s.subscribers k).Nodup) →
      (∃ inv, (batchSet s kwargs).2 =
          kwargs.map (fun p => Event.write p.1 p.2) ++ inv ∧
        ∀ e ∈ inv, ∃ cb n v, e = Event.invoke cb n v) ∧
      (∀ p ∈ kwargs, ((batchSet s kwargs).1).attrs p.1 = some p.2) ∧
      (∀ p ∈ kwargs, p.1 ∈ observedFields → ∀ cb ∈ s.subscribers p.1,
        ((batchSet s kwargs).2).count (Event.invoke cb p.1 p.2) = 1 ∧
        ∀ v' : V, Event.invoke cb p.1 v' ∈ (batchSet s kwargs).2 → v' = p.2) ∧
      (∀ p ∈ kwargs, p.1 ∉ observedFields →
        ∀ (cb : ℕ) (v' : V), Event.invoke cb p.1 v' ∉ (batchSet s kwargs).2) := by
  intro V _ s kwargs hk hs
  refine ⟨⟨notifyPass s kwargs [], rfl,
    fun e he => notifyPass_all_invoke s kwargs [] e he⟩, ?_, ?_, ?_⟩
  · intro p hp
    exact foldl_setAttr_writes kwargs s p hp hk
  · intro p hp hobs cb hcb
    constructor
    · show (kwargs.map (fun nv => Event.write nv.1 nv.2) ++
        notifyPass s kwargs []).count (Event.invoke cb p.1 p.2) = 1
      rw [List.count_append]
      have hw : (kwargs.map (fun nv => Event.write nv.1 nv.2)).count
          (Event.invoke cb p.1 p.2) = 0 := by
        rw [List.count_eq_zero]
        intro hmm
        obtain ⟨q, _, he⟩ := List.mem_map.1 hmm
        exact Event.noConfusion he
      rw [hw, notifyPass_count_one s kwargs [] p.1 p.2 cb hk (by simp) hp hobs
        (hs p.1) hcb]
    · intro v' hv'
      rcases List.mem_append.1 hv' with h1 | h2
      · obtain ⟨q, _, he⟩ := List.mem_map.1 h1
        exact Event.noConfusion he
      · obtain ⟨hmem, _, _⟩ := notifyPass_mem_invoke s kwargs [] cb p.1 v' h2
        exact keys_nodup_unique kwargs hk p.1 v' p.2 hmem hp
  · intro p hp hnobs cb v' hv'
    rcases List.mem_append.1 hv' with h1 | h2
    · obtain ⟨q, _, he⟩ := List.mem_map.1 h1
      exact Event.noConfusion he
    · obtain ⟨_, _, hobs⟩ := notifyPass_mem_invoke s kwargs [] cb p.1 v' h2
      exact hnobs hobs

/-- C9 witness: the theorem at a concrete state (one subscriber, callback 0, on
timeframe) and a concrete batch writing the observed field timeframe and the
non-observed name zzz. -/
theorem C9_witness :
    ((batchSet sampleState [("timeframe", 42), ("zzz", 1)]).1).attrs
        "timeframe" = some 42 ∧
    (batchSet sampleState [("timeframe", 42), ("zzz", 1)]).2.count
        (Event.invoke 0 "timeframe" 42) = 1 ∧
    Event.invoke 5 "zzz" 9 ∉
      (batchSet sampleState [("timeframe", 42), ("zzz", 1)]).2 := by
  have hk : ((([("timeframe", (42 : ℕ)), ("zzz", 1)]).map Prod.fst)).Nodup := by
    simp
  have hs : ∀ k, (sampleState.subscribers k).Nodup := by
    intro k
    by_cases h : k = "timeframe" <;> simp [sampleState, h]
  have T := C9_batchSet_semantics ℕ sampleState [("timeframe", 42), ("zzz", 1)] hk hs
  refine ⟨T.2.1 ("timeframe", 42) (by simp), ?_, ?_⟩
  · exact (T.2.2.1 ("timeframe", 42) (by simp) (by decide) 0
      (by simp [sampleState])).1
  · exact T.2.2.2 ("zzz", 1) (by simp) (by decide) 5 9
